import Mathlib

set_option maxRecDepth 100000

/-!
Shallow embedding of the G-code analysis engine of `gcode_parser.py`
(class `GCodeParser` and the path-extraction methods of `GCodeParserApp`):
comment stripping, modal position tracking, tool-change detection,
retraction detection, height grouping, the summary report and per-tool
path extraction.

Modelling choices:
* Python floats are modelled as exact rationals (`Rat`).  All numeric
  literals occurring in the program and in the test inputs are decimal,
  so the comparisons performed by the program have the same outcome on
  the exact values as on IEEE doubles.
* every `re` search of the source is implemented as a character-list
  scanner with the same matching semantics as the concrete pattern
  (left-to-right search, greedy numeric tokens);
* `round(x, 3)` is modelled as round-half-to-even on the exact value,
  which is Python's rounding mode.

The arithmetic of `Rat` in Batteries is marked `@[irreducible]`, which
only affects unfolding during elaboration; restoring the default
reducibility lets concrete runs of the embedded engine be evaluated by
`decide`.
-/

attribute [local semireducible] Rat.add Rat.sub Rat.mul Rat.inv Rat.ofScientific

namespace GCode

abbrev Chars := List Char

/-- The ASCII whitespace set of Python's `str.strip` and of the regex
class `\s` (space, tab, newline, carriage return, vertical tab, form feed). -/
def pySpace (c : Char) : Bool :=
  c == ' ' || c == '\t' || c == '\n' || c == '\r' || c.toNat == 11 || c.toNat == 12

/-- Python `str.strip()`. -/
def stripChars (s : Chars) : Chars :=
  ((s.dropWhile pySpace).reverse.dropWhile pySpace).reverse

/-- `line.strip()` of a raw source line. -/
def strippedOf (raw : String) : Chars := stripChars raw.data

/-- The skip test of every per-line loop:
`if line.startswith(';') or line.startswith('(') or not line: continue`. -/
def isSkipped (l : Chars) : Bool :=
  l.isEmpty || l.head? == some ';' || l.head? == some '('

/-- State-machine scan implementing `re.sub(r'\([^)]*\)', '', line)`:
each `(` that still has a `)` after it is removed together with
everything up to and including the next `)` (the flag records being
inside such a region); a `(` with no later `)` cannot be matched by the
pattern and is kept. -/
def removeParensAux : Bool → Chars → Chars
  | _, [] => []
  | true, c :: rest =>
    if c == ')' then removeParensAux false rest else removeParensAux true rest
  | false, c :: rest =>
    if c == '(' && rest.contains ')' then removeParensAux true rest
    else c :: removeParensAux false rest

def removeParens (l : Chars) : Chars := removeParensAux false l

/-- Inline-comment removal of the analysis loops: first
`re.sub(r'\([^)]*\)', '', line)`, then `re.sub(r';.*', '', line)`. -/
def cleanChars (l : Chars) : Chars :=
  (removeParens l).takeWhile (fun c => c != ';')

/-- The cleaned command text of a raw line (strip, then comment removal). -/
def cleanOf (raw : String) : Chars := cleanChars (strippedOf raw)

/-- Numeric value of a digit run. -/
def digitsVal (ds : Chars) : Nat :=
  ds.foldl (fun a c => 10 * a + (c.toNat - '0'.toNat)) 0

/-- Greedy match of the regex `[-+]?\d*\.?\d+` at the head of `s`: the
exact value of the matched token and the remaining characters.  A dot is
part of the match only when at least one digit follows it (the regex
backtracks out of `\.?` otherwise). -/
def parseNum (s : Chars) : Option (Rat × Chars) :=
  let sgn : Rat := if s.head? == some '-' then -1 else 1
  let s1 := if s.head? == some '-' || s.head? == some '+' then s.drop 1 else s
  let d1 := s1.takeWhile Char.isDigit
  let r1 := s1.dropWhile Char.isDigit
  match r1 with
  | '.' :: r2 =>
    let d2 := r2.takeWhile Char.isDigit
    if d2.isEmpty then
      if d1.isEmpty then none
      else some (sgn * (digitsVal d1 : Rat), r1)
    else
      some (sgn * ((digitsVal d1 : Rat) + (digitsVal d2 : Rat) / (10 : Rat) ^ d2.length),
            r2.dropWhile Char.isDigit)
  | _ => if d1.isEmpty then none else some (sgn * (digitsVal d1 : Rat), r1)

/-- Modal machine position (`current_pos`). -/
structure Pos where
  x : Rat
  y : Rat
  z : Rat
deriving Repr, DecidableEq

def Pos.set (p : Pos) (axis : Char) (v : Rat) : Pos :=
  if axis == 'X' then { p with x := v }
  else if axis == 'Y' then { p with y := v }
  else { p with z := v }

def isAxisChar (c : Char) : Bool :=
  c == 'X' || c == 'x' || c == 'Y' || c == 'y' || c == 'Z' || c == 'z'

/-- The position update of
`for match in re.finditer(r'[XxYyZz]([-+]?\d*\.?\d+)', clean): current_pos[axis] = value`:
matches are applied left to right, so for a repeated axis the last
occurrence wins.  (Scanning restarts one character after each axis
letter; this agrees with the non-overlapping `finditer` scan because a
matched numeric token never contains an axis letter.) -/
def scanPositions (p : Pos) : Chars → Pos
  | [] => p
  | c :: rest =>
    if isAxisChar c then
      match parseNum rest with
      | some (v, _) => scanPositions (p.set c.toUpper v) rest
      | none => scanPositions p rest
    else scanPositions p rest

/-- Is there a `[Zz]` immediately followed by a numeric token anywhere in
`s` (the `.*[Zz]([-+]?\d*\.?\d+)` tail of the Z-movement pattern)? -/
def hasZNum : Chars → Bool
  | [] => false
  | c :: rest => ((c == 'Z' || c == 'z') && (parseNum rest).isSome) || hasZNum rest

/-- After a `[GgMm]` letter: match `(?:\d+\.?\d*)\s+.*[Zz](number)`.
The greedy numeric token is one or more digits, an optional dot and
optional digits; it must be followed by a whitespace character, after
which a `Z`/`z` with a number may occur anywhere. -/
def zMoveTail (s : Chars) : Bool :=
  let d1 := s.takeWhile Char.isDigit
  let r1 := s.dropWhile Char.isDigit
  if d1.isEmpty then false
  else
    let r2 := match r1 with
      | '.' :: r => r.dropWhile Char.isDigit
      | _ => r1
    match r2 with
    | c :: r3 => pySpace c && hasZNum r3
    | [] => false

/-- `re.search(r'[GgMm](?:\d+\.?\d*)\s+.*[Zz]([-+]?\d*\.?\d+)', clean) is not None`. -/
def isZMovement : Chars → Bool
  | [] => false
  | c :: rest =>
    ((c == 'G' || c == 'g' || c == 'M' || c == 'm') && zMoveTail rest) || isZMovement rest

/-- `re.search(r'[Gg]0', clean) is not None`: a plain substring search for
`G0`/`g0` anywhere in the cleaned line. -/
def isRapid : Chars → Bool
  | [] => false
  | 'G' :: '0' :: _ => true
  | 'g' :: '0' :: _ => true
  | _ :: rest => isRapid rest

/-- First match of `re.search(r'T(\d+)', s)` (case-sensitive): the captured
digit run, preserving its original formatting. -/
def searchBareT : Chars → Option String
  | [] => none
  | c :: rest =>
    if c == 'T' && !(rest.takeWhile Char.isDigit).isEmpty then
      some (String.mk (rest.takeWhile Char.isDigit))
    else searchBareT rest

/-- Remainder of `s` after the literal characters `lit`, when `s` starts
with them. -/
def afterLit : Chars → Chars → Option Chars
  | [], s => some s
  | _ :: _, [] => none
  | l :: ls, c :: cs => if c == l then afterLit ls cs else none

/-- Match `\s+<letter>(\d+)` at the head of `s`: one or more whitespace
characters, then the given letter, then captured digits. -/
def spacedCapture (letter : Char) (s : Chars) : Option String :=
  let ws := s.takeWhile pySpace
  let r := s.dropWhile pySpace
  if ws.isEmpty then none
  else
    match r with
    | c :: r2 =>
      if c == letter && !(r2.takeWhile Char.isDigit).isEmpty then
        some (String.mk (r2.takeWhile Char.isDigit))
      else none
    | [] => none

/-- `re.search(lit + r'\s+' + letter + r'(\d+)', s)`: first position whose
literal characters, whitespace, letter and digits all match; when the
full pattern fails at one position the search continues at the next. -/
def searchLit (lit : Chars) (letter : Char) : Chars → Option String
  | [] => none
  | c :: rest =>
    match afterLit lit (c :: rest) with
    | some r =>
      match spacedCapture letter r with
      | some t => some t
      | none => searchLit lit letter rest
    | none => searchLit lit letter rest

/-- The ordered pattern cascade of `detect_tool_changes`:
`T(\d+)`, `M6\s+T(\d+)`, `M06\s+T(\d+)`, `M61\s+Q(\d+)`; the first
pattern that matches wins. -/
def firstToolMatch (clean : Chars) : Option String :=
  match searchBareT clean with
  | some t => some t
  | none =>
    match searchLit ['M', '6'] 'T' clean with
    | some t => some t
    | none =>
      match searchLit ['M', '0', '6'] 'T' clean with
      | some t => some t
      | none => searchLit ['M', '6', '1'] 'Q' clean

structure ToolChangeEvent where
  line_number : Nat
  tool_number : String
  line_content : String
deriving Repr, DecidableEq

/-- One line of the `detect_tool_changes` loop at 1-based line `n`. -/
def toolLineEvent (n : Nat) (raw : String) : Option ToolChangeEvent :=
  let l := strippedOf raw
  if isSkipped l then none
  else
    match firstToolMatch (cleanChars l) with
    | some t => some ⟨n, t, String.mk l⟩
    | none => none

def detectToolAux (n : Nat) : List String → List ToolChangeEvent
  | [] => []
  | raw :: rest =>
    match toolLineEvent n raw with
    | some e => e :: detectToolAux (n + 1) rest
    | none => detectToolAux (n + 1) rest

/-- `GCodeParser.detect_tool_changes`. -/
def detect_tool_changes (lines : List String) : List ToolChangeEvent :=
  detectToolAux 1 lines

/-- A retraction record.  In the Python source the `grouped` and
`group_size` keys are absent until `_group_similar_retractions` sets
them on every event; the initial values `false`/`0` model the absent
keys (callers read them with `.get(key, default)`). -/
structure RetractionEvent where
  line_number : Nat
  z_height : Rat
  line_content : String
  end_line : Nat
  end_content : String
  grouped : Bool
  group_size : Nat
deriving Repr, DecidableEq, Inhabited

/-- The loop state of `detect_retractions`. -/
structure RState where
  pos : Pos
  prev_z : Rat
  in_retraction : Bool
  start_line : Nat
  start_height : Rat
  events : List RetractionEvent
deriving Repr, DecidableEq

def initRState : RState := ⟨⟨0, 0, 0⟩, 0, false, 0, 0, []⟩

/-- One iteration of the `detect_retractions` loop at 1-based line `n`.
`allLines` is `self.lines`, used for the `line_content` lookup
`self.lines[retraction_start_line-1].strip()`; whenever an event is
emitted `1 ≤ start_line ≤ n` holds, so the `getD` default is never
used on reachable states. -/
def processRetrLine (allLines : List String) (st : RState) (n : Nat) (raw : String) :
    RState :=
  let l := strippedOf raw
  if isSkipped l then st
  else
    let clean := cleanChars l
    let pos := scanPositions st.pos clean
    let st1 : RState := { st with pos := pos }
    let st2 : RState :=
      if isZMovement clean && decide (st.prev_z + 1/2 < pos.z) && !st.in_retraction then
        { st1 with in_retraction := true, start_line := n, start_height := pos.z }
      else st1
    let st3 : RState :=
      if st2.in_retraction && isRapid clean then
        let ev : RetractionEvent :=
          { line_number := st2.start_line, z_height := st2.start_height,
            line_content := String.mk (stripChars (allLines.getD (st2.start_line - 1) "").data),
            end_line := n, end_content := String.mk l,
            grouped := false, group_size := 0 }
        let st4 : RState := { st2 with events := st2.events ++ [ev] }
        if decide (pos.z < st2.start_height) then { st4 with in_retraction := false }
        else st4
      else st2
    { st3 with prev_z := pos.z }

def retrAux (allLines : List String) (st : RState) (n : Nat) : List String → RState
  | [] => st
  | raw :: rest => retrAux allLines (processRetrLine allLines st n raw) (n + 1) rest

/-- The detection pass of `GCodeParser.detect_retractions`, before the
grouping post-process. -/
def detectRetractionsRaw (lines : List String) : List RetractionEvent :=
  (retrAux lines initRState 1 lines).events

/-- Round half to even, Python's rounding mode for `round(x, n)`. -/
def roundHE (q : Rat) : Int :=
  let f := Rat.floor q
  if q - (f : Rat) < 1/2 then f
  else if (1 : Rat)/2 < q - (f : Rat) then f + 1
  else if f % 2 = 0 then f else f + 1

/-- `round(x, 3)` on the exact value. -/
def round3 (q : Rat) : Rat := (roundHE (q * 1000) : Rat) / 1000

/-- Closing a height cluster: every member's `z_height` is overwritten
with the cluster mean rounded to 3 decimals, and `grouped`/`group_size`
are set on every member. -/
def closeGroup (g : List RetractionEvent) : List RetractionEvent :=
  let avg := (g.foldl (fun a r => a + r.z_height) 0) / (g.length : Rat)
  g.map fun r => { r with z_height := round3 avg, grouped := true, group_size := g.length }

/-- The grouping walk over the height-sorted events: `cur` is the current
cluster in order and `prevH` the original height of its most recently
added member (Python's `current_group[-1]`, whose height is only
overwritten when the cluster closes). -/
def groupLoop (cur : List RetractionEvent) (prevH : Rat) :
    List RetractionEvent → List RetractionEvent
  | [] => closeGroup cur
  | r :: rest =>
    if |r.z_height - prevH| < 1/10 then groupLoop (cur ++ [r]) r.z_height rest
    else closeGroup cur ++ groupLoop [r] r.z_height rest

/-- Stable insertion for the ascending sort by `z_height`; an incoming
event is placed before the first strictly larger member, hence after all
equal heights, which reproduces the stability of Python's `list.sort`. -/
def insertByHeight (r : RetractionEvent) : List RetractionEvent → List RetractionEvent
  | [] => [r]
  | y :: ys =>
    if y.z_height < r.z_height then y :: insertByHeight r ys else r :: y :: ys

/-- `self.retractions.sort(key=lambda x: x['z_height'])` (stable ascending). -/
def sortByHeight : List RetractionEvent → List RetractionEvent
  | [] => []
  | r :: rest => insertByHeight r (sortByHeight rest)

/-- `GCodeParser._group_similar_retractions` (on the empty list the Python
method returns early, leaving the collection unchanged). -/
def group_similar_retractions (rs : List RetractionEvent) : List RetractionEvent :=
  match sortByHeight rs with
  | [] => rs
  | r :: rest => groupLoop [r] r.z_height rest

/-- `GCodeParser.detect_retractions`: detection followed by grouping. -/
def detect_retractions (lines : List String) : List RetractionEvent :=
  group_similar_retractions (detectRetractionsRaw lines)

/-- The analysis state of a `GCodeParser` instance. -/
structure GCodeParser where
  lines : List String
  tool_changes : List ToolChangeEvent
  retractions : List RetractionEvent
deriving Repr, DecidableEq

/-- `GCodeParser.parse`: recomputes both result collections from
`self.lines` (each detector resets its collection before scanning). -/
def parse (p : GCodeParser) : GCodeParser :=
  { p with tool_changes := detect_tool_changes p.lines,
           retractions := detect_retractions p.lines }

def get_tool_changes (p : GCodeParser) : List ToolChangeEvent := p.tool_changes

def get_retractions (p : GCodeParser) : List RetractionEvent := p.retractions

/-- Zero-padded decimal rendering of a natural number. -/
def natPad (n width : Nat) : String :=
  let s := toString n
  String.mk (List.replicate (width - s.length) '0') ++ s

/-- Python fixed-point formatting `f"{x:.<prec>f}"` on the exact value
(round half to even at `prec` decimal places). -/
def fmtFixed (x : Rat) (prec : Nat) : String :=
  let scaled := roundHE (x * (10 : Rat) ^ prec)
  let m := scaled.natAbs
  let core := toString (m / 10 ^ prec) ++ "." ++ natPad (m % 10 ^ prec) prec
  if scaled < 0 then "-" ++ core else core

/-- `f"Line {line_number}: Tool T{tool_number} - {line_content}"`. -/
def toolChangeLine (tc : ToolChangeEvent) : String :=
  "Line " ++ toString tc.line_number ++ ": Tool T" ++ tc.tool_number ++ " - " ++
    tc.line_content

/-- Insert `r` into the `height_groups` dict of `summarize` (Python dicts
iterate in key-insertion order; the key is the exact `z_height`). -/
def addToHeightGroup (r : RetractionEvent) :
    List (Rat × List RetractionEvent) → List (Rat × List RetractionEvent)
  | [] => [(r.z_height, [r])]
  | (h, g) :: rest =>
    if h = r.z_height then (h, g ++ [r]) :: rest
    else (h, g) :: addToHeightGroup r rest

/-- `height_groups` in insertion order. -/
def heightGroups (rs : List RetractionEvent) : List (Rat × List RetractionEvent) :=
  rs.foldl (fun m r => addToHeightGroup r m) []

/-- Insertion for `sorted(height_groups.items())` (keys are distinct). -/
def insertGroupByKey (x : Rat × List RetractionEvent) :
    List (Rat × List RetractionEvent) → List (Rat × List RetractionEvent)
  | [] => [x]
  | y :: ys => if y.1 < x.1 then y :: insertGroupByKey x ys else x :: y :: ys

def sortGroups : List (Rat × List RetractionEvent) → List (Rat × List RetractionEvent)
  | [] => []
  | x :: xs => insertGroupByKey x (sortGroups xs)

/-- The report lines of one height bucket. -/
def heightGroupLines (hg : Rat × List RetractionEvent) : List String :=
  ("Z Height: " ++ fmtFixed hg.1 3 ++ " (first on line " ++
      toString (hg.2.headD default).line_number ++ ")")
    :: if 1 < hg.2.length then
        ["  Found in " ++ toString hg.2.length ++ " movements"]
      else []

/-- `max(height_groups.items(), key=lambda x: len(x[1]))`: the first
maximal bucket in insertion order (Python's `max` keeps the earlier
element on ties). -/
def maxByCount (g0 : Rat × List RetractionEvent)
    (gs : List (Rat × List RetractionEvent)) : Rat × List RetractionEvent :=
  gs.foldl (fun best x => if best.2.length < x.2.length then x else best) g0

/-- `GCodeParser.summarize`, as a function of the two result collections
(`self.tool_changes` and `self.retractions`). -/
def summarize (tcs : List ToolChangeEvent) (rs : List RetractionEvent) : String :=
  let tcPart : List String :=
    if tcs.isEmpty then ["No tool changes detected."] else tcs.map toolChangeLine
  let rPart : List String :=
    if rs.isEmpty then ["No retractions detected."]
    else
      let hgs := heightGroups rs
      let shown := ((sortGroups hgs).map heightGroupLines).flatten
      let primaryPart : List String :=
        match hgs with
        | [] => []
        | g :: gs =>
          let lg := maxByCount g gs
          ["\nPrimary Retraction Height: " ++ fmtFixed lg.1 3,
           "  Used in " ++ toString lg.2.length ++ " out of " ++
             toString rs.length ++ " retractions",
           "  (" ++ fmtFixed ((lg.2.length : Rat) / (rs.length : Rat) * 100) 1 ++
             "% of all retractions)"]
      shown ++ primaryPart
  String.intercalate "\n"
    (["=== G-code Analysis Summary ===", "\nTool Changes:"] ++ tcPart ++
      ["\nRetraction Heights:"] ++ rPart)

/-- A `[X, Y, Z]` path sample. -/
abbrev Point3 := Rat × Rat × Rat

/-- First case-insensitive occurrence of `axis` followed by a numeric
token: `re.search(axis + r'([-+]?\d*\.?\d+)', line, re.IGNORECASE)`.
A position where the axis letter is not followed by a number is skipped
and the search continues. -/
def searchAxisNum (axis : Char) : Chars → Option Rat
  | [] => none
  | c :: rest =>
    if c.toUpper == axis then
      match parseNum rest with
      | some (v, _) => some v
      | none => searchAxisNum axis rest
    else searchAxisNum axis rest

/-- `tool_paths.setdefault(tool, []).extend(path)`: append to the entry in
place if the key exists, otherwise add the key at the end. -/
def extendPath (k : String) (v : List Point3) :
    List (String × List Point3) → List (String × List Point3)
  | [] => [(k, v)]
  | (k0, v0) :: rest =>
    if k0 == k then (k0, v0 ++ v) :: rest else (k0, v0) :: extendPath k v rest

/-- The loop state of `extract_tool_paths`. -/
structure EPState where
  tool_paths : List (String × List Point3)
  current_tool : Option String
  current_path : List Point3
  pos : Pos
  tc_idx : Nat
deriving Repr, DecidableEq

/-- The flush `if current_tool is not None and current_path: ...extend...`. -/
def flushPath (st : EPState) : List (String × List Point3) :=
  match st.current_tool with
  | some t =>
    if st.current_path.isEmpty then st.tool_paths
    else extendPath t st.current_path st.tool_paths
  | none => st.tool_paths

/-- One iteration of the `extract_tool_paths` loop at 0-based index `i`.
Unlike the retraction pass, axis values are searched in the *stripped
raw line* (inline comments are not removed here) and the first
occurrence of each axis wins; a path point is appended for every
processed line. -/
def epStep (tcs : List ToolChangeEvent) (st : EPState) (i : Nat) (raw : String) :
    EPState :=
  let l := strippedOf raw
  if isSkipped l then st
  else
    let st1 : EPState :=
      match tcs[st.tc_idx]? with
      | some tc =>
        if i + 1 = tc.line_number then
          { st with tool_paths := flushPath st, current_tool := some tc.tool_number,
                    current_path := [], tc_idx := st.tc_idx + 1 }
        else st
      | none => st
    let px := (searchAxisNum 'X' l).getD st1.pos.x
    let py := (searchAxisNum 'Y' l).getD st1.pos.y
    let pz := (searchAxisNum 'Z' l).getD st1.pos.z
    { st1 with pos := ⟨px, py, pz⟩,
               current_path := st1.current_path ++ [(px, py, pz)] }

def epAux (tcs : List ToolChangeEvent) (st : EPState) (i : Nat) :
    List String → EPState
  | [] => st
  | raw :: rest => epAux tcs (epStep tcs st i raw) (i + 1) rest

/-- `GCodeParserApp.extract_tool_paths`, as a function of the loaded
lines (the tool-change list is the parser's, recomputed here exactly as
`self.gcode_parser.get_tool_changes()` yields it after `parse()`). -/
def extract_tool_paths (lines : List String) : List (String × List Point3) :=
  flushPath (epAux (detect_tool_changes lines) ⟨[], none, [], ⟨0, 0, 0⟩, 0⟩ 0 lines)

/-- The detection-time identity of a retraction event: the fields the
grouping step never touches. -/
def projStart (e : RetractionEvent) : Nat × Nat × String × String :=
  (e.line_number, e.end_line, e.line_content, e.end_content)

/-- A regex word character (`\w`, ASCII). -/
def isWordChar (c : Char) : Bool := c.isAlphanum || c == '_'

/-- The rapid test of `extract_rapid_segments`:
`re.match(r'G0\b|G00\b', line, re.IGNORECASE)`.  `re.match` anchors at
the start of the stripped line; the first alternative `G0\b` needs a
non-word character (or end) after `G0`, otherwise `G00\b` is tried, so
`G0`/`G00` match but the feed word `G01` does not. -/
def matchRapidAnchored : Chars → Bool
  | c0 :: '0' :: rest =>
    (c0 == 'G' || c0 == 'g') &&
      (match rest with
       | [] => true
       | c2 :: rest2 =>
         if isWordChar c2 then
           c2 == '0' &&
             (match rest2 with
              | [] => true
              | c3 :: _ => !isWordChar c3)
         else true)
  | _ => false

/-- `rapid_segments.setdefault(tool, []).append(seg)`. -/
def appendSeg (k : String) (s : Point3 × Point3) :
    List (String × List (Point3 × Point3)) → List (String × List (Point3 × Point3))
  | [] => [(k, [s])]
  | (k0, v0) :: rest =>
    if k0 == k then (k0, v0 ++ [s]) :: rest else (k0, v0) :: appendSeg k s rest

/-- The loop state of `extract_rapid_segments`. -/
structure ESState where
  rapid_segments : List (String × List (Point3 × Point3))
  current_tool : Option String
  tc_idx : Nat
  pos : Pos
  prev_pos : Option Pos
deriving Repr, DecidableEq

/-- One iteration of the `extract_rapid_segments` loop at 0-based index
`i`.  The axis scan is the same one as in `extract_tool_paths`: the
*stripped raw line* (inline comments not removed), first occurrence of
each axis wins.  A segment is recorded on an anchored `G0`/`G00` line
when both a previous position and an active tool exist; `prev_pos` is
updated to the post-update position at the end of every processed line. -/
def esStep (tcs : List ToolChangeEvent) (st : ESState) (i : Nat) (raw : String) :
    ESState :=
  let l := strippedOf raw
  if isSkipped l then st
  else
    let st1 : ESState :=
      match tcs[st.tc_idx]? with
      | some tc =>
        if i + 1 = tc.line_number then
          { st with current_tool := some tc.tool_number, tc_idx := st.tc_idx + 1 }
        else st
      | none => st
    let px := (searchAxisNum 'X' l).getD st1.pos.x
    let py := (searchAxisNum 'Y' l).getD st1.pos.y
    let pz := (searchAxisNum 'Z' l).getD st1.pos.z
    let st2 : ESState := { st1 with pos := ⟨px, py, pz⟩ }
    let st3 : ESState :=
      if matchRapidAnchored l then
        match st2.prev_pos, st2.current_tool with
        | some pp, some t =>
          { st2 with rapid_segments :=
              appendSeg t ((pp.x, pp.y, pp.z), (px, py, pz)) st2.rapid_segments }
        | _, _ => st2
      else st2
    { st3 with prev_pos := some ⟨px, py, pz⟩ }

def esAux (tcs : List ToolChangeEvent) (st : ESState) (i : Nat) :
    List String → ESState
  | [] => st
  | raw :: rest => esAux tcs (esStep tcs st i raw) (i + 1) rest

/-- `GCodeParserApp.extract_rapid_segments`, as a function of the loaded
lines (the tool-change list recomputed exactly as the parser yields it
after `parse()`). -/
def extract_rapid_segments (lines : List String) :
    List (String × List (Point3 × Point3)) :=
  (esAux (detect_tool_changes lines) ⟨[], none, 0, ⟨0, 0, 0⟩, none⟩ 0 lines).rapid_segments

/-! ## Supporting lemmas -/

lemma toolLineEvent_line_number {n : Nat} {raw : String} {e : ToolChangeEvent}
    (h : toolLineEvent n raw = some e) : e.line_number = n := by
  simp only [toolLineEvent] at h
  split at h
  · exact absurd h (by simp)
  · split at h
    · injection h with h
      subst h
      rfl
    · exact absurd h (by simp)

lemma le_of_mem_detectToolAux :
    ∀ (lines : List String) (n : Nat) (e : ToolChangeEvent),
      e ∈ detectToolAux n lines → n ≤ e.line_number := by
  intro lines
  induction lines with
  | nil => intro n e h; simp [detectToolAux] at h
  | cons raw rest ih =>
    intro n e h
    simp only [detectToolAux] at h
    cases hte : toolLineEvent n raw with
    | some e0 =>
      rw [hte] at h
      rcases List.mem_cons.mp h with h1 | h1
      · subst h1
        exact Nat.le_of_eq (toolLineEvent_line_number hte).symm
      · exact Nat.le_trans (Nat.le_succ n) (ih (n + 1) e h1)
    | none =>
      rw [hte] at h
      exact Nat.le_trans (Nat.le_succ n) (ih (n + 1) e h)

lemma detectToolAux_pairwise :
    ∀ (lines : List String) (n : Nat),
      List.Pairwise (fun a b => a.line_number < b.line_number) (detectToolAux n lines) := by
  intro lines
  induction lines with
  | nil => intro n; simp [detectToolAux]
  | cons raw rest ih =>
    intro n
    simp only [detectToolAux]
    cases hte : toolLineEvent n raw with
    | some e0 =>
      refine List.Pairwise.cons (fun b hb => ?_) (ih (n + 1))
      have h1 := le_of_mem_detectToolAux rest (n + 1) b hb
      have h2 := toolLineEvent_line_number hte
      omega
    | none => exact ih (n + 1)

lemma mem_closeGroup {g : List RetractionEvent} {e : RetractionEvent}
    (h : e ∈ closeGroup g) : e.grouped = true ∧ e.group_size = g.length := by
  simp only [closeGroup] at h
  rcases List.mem_map.mp h with ⟨r, _, rfl⟩
  exact ⟨rfl, rfl⟩

lemma groupLoop_grouped :
    ∀ (rest cur : List RetractionEvent) (prevH : Rat), cur ≠ [] →
      ∀ e ∈ groupLoop cur prevH rest, e.grouped = true ∧ 1 ≤ e.group_size := by
  intro rest
  induction rest with
  | nil =>
    intro cur prevH hcur e he
    simp only [groupLoop] at he
    obtain ⟨h1, h2⟩ := mem_closeGroup he
    exact ⟨h1, h2 ▸ List.length_pos.mpr hcur⟩
  | cons r rest ih =>
    intro cur prevH hcur e he
    simp only [groupLoop] at he
    split at he
    · exact ih (cur ++ [r]) r.z_height (by simp) e he
    · rcases List.mem_append.mp he with h | h
      · obtain ⟨h1, h2⟩ := mem_closeGroup h
        exact ⟨h1, h2 ▸ List.length_pos.mpr hcur⟩
      · exact ih [r] r.z_height (by simp) e h

lemma insertByHeight_perm (r : RetractionEvent) (l : List RetractionEvent) :
    (insertByHeight r l).Perm (r :: l) := by
  induction l with
  | nil => simp [insertByHeight]
  | cons y ys ih =>
    simp only [insertByHeight]
    split
    · exact List.Perm.trans (List.Perm.cons y ih) (List.Perm.swap r y ys)
    · exact List.Perm.refl _

lemma sortByHeight_perm (l : List RetractionEvent) : (sortByHeight l).Perm l := by
  induction l with
  | nil => simp [sortByHeight]
  | cons r rest ih =>
    exact List.Perm.trans (insertByHeight_perm r (sortByHeight rest))
      (List.Perm.cons r ih)

lemma map_projStart_closeGroup (g : List RetractionEvent) :
    (closeGroup g).map projStart = g.map projStart := by
  simp only [closeGroup, List.map_map]
  rfl

lemma groupLoop_map_projStart :
    ∀ (rest cur : List RetractionEvent) (prevH : Rat),
      (groupLoop cur prevH rest).map projStart
        = cur.map projStart ++ rest.map projStart := by
  intro rest
  induction rest with
  | nil => intro cur prevH; simp [groupLoop, map_projStart_closeGroup]
  | cons r rest ih =>
    intro cur prevH
    simp only [groupLoop]
    split
    · rw [ih]
      simp
    · rw [List.map_append, map_projStart_closeGroup, ih]
      simp

lemma group_map_projStart_perm (rs : List RetractionEvent) :
    ((group_similar_retractions rs).map projStart).Perm (rs.map projStart) := by
  unfold group_similar_retractions
  split
  · exact List.Perm.refl _
  · rename_i r rest hsort
    rw [groupLoop_map_projStart]
    have h1 : ([r].map projStart ++ rest.map projStart)
        = (sortByHeight rs).map projStart := by
      rw [hsort]
      simp
    rw [h1]
    exact (sortByHeight_perm rs).map projStart

/-- The state invariant of the retraction-detection loop after the lines
before `n` have been processed: a recorded lift start lies in `[1, n)`,
and every emitted event has `1 ≤ line_number ≤ end_line < n`. -/
def RInv (n : Nat) (st : RState) : Prop :=
  (st.in_retraction = true → 1 ≤ st.start_line ∧ st.start_line < n) ∧
  ∀ e ∈ st.events, 1 ≤ e.line_number ∧ e.line_number ≤ e.end_line ∧ e.end_line < n

lemma processRetrLine_inv (allLines : List String) (st : RState) (n : Nat) (raw : String)
    (hn : 1 ≤ n) (h : RInv n st) : RInv (n + 1) (processRetrLine allLines st n raw) := by
  obtain ⟨hstart, hev⟩ := h
  simp only [processRetrLine, RInv]
  split_ifs with h1 h2 h3 h4 h5 h6 <;>
    refine ⟨fun hi => ?_, fun e he => ?_⟩ <;>
    (try dsimp only at *) <;>
    first
      | omega
      | (exact absurd hi (by decide))
      | (have hx := hstart hi; omega)
      | (have hx := hev e he; omega)
      | (rcases List.mem_append.mp he with hm | hm
         · have hx := hev e hm
           omega
         · simp only [List.mem_singleton] at hm
           subst hm
           dsimp only
           first
             | omega
             | (have hin : st.in_retraction = true := by
                  simp only [Bool.and_eq_true] at h5
                  exact h5.1
                have hx := hstart hin
                omega))

lemma retrAux_inv :
    ∀ (rest : List String) (allLines : List String) (st : RState) (n : Nat),
      1 ≤ n → RInv n st → RInv (n + rest.length) (retrAux allLines st n rest) := by
  intro rest
  induction rest with
  | nil => intro allLines st n _ h; simpa [retrAux] using h
  | cons raw rest ih =>
    intro allLines st n hn h
    have h1 := processRetrLine_inv allLines st n raw hn h
    have h2 := ih allLines (processRetrLine allLines st n raw) (n + 1) (by omega) h1
    simp only [retrAux, List.length_cons]
    have h3 : n + 1 + rest.length = n + (rest.length + 1) := by omega
    rw [h3] at h2
    exact h2

lemma detectRaw_bounds (lines : List String) :
    ∀ e ∈ detectRetractionsRaw lines,
      1 ≤ e.line_number ∧ e.line_number ≤ e.end_line ∧ e.end_line ≤ lines.length := by
  intro e he
  have h0 : RInv 1 initRState := by
    constructor
    · intro hi; exact absurd hi (by decide)
    · intro e he; exact absurd he (by simp [initRState])
  have h1 := retrAux_inv lines lines initRState 1 (le_refl 1) h0
  have h2 := h1.2 e he
  omega

/-! ## Claim theorems -/

/-- C5: every event surviving `_group_similar_retractions` — singleton
clusters included — carries `grouped = true` and a positive
`group_size`; for detected heights `[5.00, 5.05, 5.12, 8.00]` the first
three cluster through the chained 0.1 tolerance (5.12 joins via 5.05
although it is 0.12 away from 5.00), every member's height is rewritten
to the rounded mean 5.057 with `group_size = 3`, and 8.00 forms a
singleton group with `group_size = 1`, `grouped = true`. -/
theorem grouping_flags_and_example :
    (∀ (rs : List RetractionEvent) (e : RetractionEvent),
        e ∈ group_similar_retractions rs → e.grouped = true ∧ 1 ≤ e.group_size)
    ∧ group_similar_retractions
        [⟨1, 5, "r1", 1, "r1", false, 0⟩, ⟨2, 5.05, "r2", 2, "r2", false, 0⟩,
         ⟨3, 5.12, "r3", 3, "r3", false, 0⟩, ⟨4, 8, "r4", 4, "r4", false, 0⟩]
      = [⟨1, 5.057, "r1", 1, "r1", true, 3⟩, ⟨2, 5.057, "r2", 2, "r2", true, 3⟩,
         ⟨3, 5.057, "r3", 3, "r3", true, 3⟩, ⟨4, 8, "r4", 4, "r4", true, 1⟩] := by
  constructor
  · intro rs e he
    unfold group_similar_retractions at he
    split at he
    · rename_i hsort
      have hnil : rs = [] := by
        have hp := sortByHeight_perm rs
        rw [hsort] at hp
        exact (hp.symm).eq_nil
      rw [hnil] at he
      exact absurd he (by simp)
    · exact groupLoop_grouped _ _ _ (by simp) e he
  · decide

/-- C5 witness: the general clause of `grouping_flags_and_example`
applied to the concrete height-5 event of the example run. -/
theorem grouping_flags_witness :
    (⟨1, 5.057, "r1", 1, "r1", true, 3⟩ : RetractionEvent).grouped = true
    ∧ 1 ≤ (⟨1, 5.057, "r1", 1, "r1", true, 3⟩ : RetractionEvent).group_size :=
  grouping_flags_and_example.1
    [⟨1, 5, "r1", 1, "r1", false, 0⟩, ⟨2, 5.05, "r2", 2, "r2", false, 0⟩,
     ⟨3, 5.12, "r3", 3, "r3", false, 0⟩, ⟨4, 8, "r4", 4, "r4", false, 0⟩]
    ⟨1, 5.057, "r1", 1, "r1", true, 3⟩ (by decide)

/-- C1 counterexample: on the input lines `T1`, `G1 X1 Y1 Z1`, `T2`,
`G1 X2 Y2 Z2`, `extract_tool_paths()` does *not* map tool "1" to exactly
`[[1,1,1]]` and tool "2" to exactly `[[2,2,2]]` (the truth value of the
claimed property at this input computes to `false`). -/
theorem extract_tool_paths_example_refuted :
    decide ((extract_tool_paths ["T1", "G1 X1 Y1 Z1", "T2", "G1 X2 Y2 Z2"]).lookup "1"
          = some [((1 : Rat), 1, 1)]
        ∧ (extract_tool_paths ["T1", "G1 X1 Y1 Z1", "T2", "G1 X2 Y2 Z2"]).lookup "2"
          = some [((2 : Rat), 2, 2)]) = false := by decide

/-- C1 amended: on the input lines `T1`, `G1 X1 Y1 Z1`, `T2`, `G1 X2 Y2 Z2`,
`extract_tool_paths()` maps tool "1" to `[[0,0,0],[1,1,1]]` and tool "2"
to `[[1,1,1],[2,2,2]]`: every processed line — the tool-change line
included — appends the current position, which on a line without axis
words is still the previous position. -/
theorem extract_tool_paths_example :
    extract_tool_paths ["T1", "G1 X1 Y1 Z1", "T2", "G1 X2 Y2 Z2"]
      = [("1", [(0, 0, 0), (1, 1, 1)]), ("2", [(1, 1, 1), (2, 2, 2)])] := by decide

/-- C6: the rapid-travel test of the retraction detector is the substring
search `re.search(r'[Gg]0')`, so the feed move `G01 X5` is classified as
rapid and, after a lift, emits a RetractionEvent ending on that feed
line — against the documented `G0`/`G00` rapid-only behaviour. -/
theorem rapid_substring_matches_feed_move :
    isRapid (cleanOf "G01 X5") = true
    ∧ detect_retractions ["G1 Z1", "G01 X5"]
        = [⟨1, 1, "G1 Z1", 2, "G01 X5", true, 1⟩] := by decide

/-- C7 counterexample: the claimed uniform Position-Tracker contract fails
for `extract_tool_paths()`: on the line `G1 X1 X2` the path pass records
X from the *first* occurrence (point `[1,0,0]`), not the last (`[2,0,0]`)
— the truth value of the claimed behaviour at this input computes to
`false`. -/
theorem position_contract_refuted :
    decide ((extract_tool_paths ["T1", "G1 X1 X2"]).lookup "1"
        = some [((0 : Rat), 0, 0), (2, 0, 0)]) = false
    ∧ (extract_tool_paths ["T1", "G1 X1 X2"]).lookup "1"
        = some [((0 : Rat), 0, 0), (1, 0, 0)] := by decide

/-- C7 amended: the retraction-detection pass follows the contract —
comments are stripped before scanning and the last occurrence of a
repeated axis wins — while both extraction passes (`extract_tool_paths`
and `extract_rapid_segments`) scan the stripped raw line (inline
comments included) and the first occurrence of each axis wins.  For
`G1 Z1 ; retract (ignored T9)` no tool change is registered and Z
updates to 1 in the retraction pass, which then emits at the following
rapid line; both extractors read X=1 (not 2) from `G1 X1 X2` — the
rapid-segment pass propagates that first-occurrence value into the
recorded segment — and both read an axis value even out of an inline
comment (`G1 ; X9`). -/
theorem position_scan_behaviour :
    (scanPositions ⟨0, 0, 0⟩ (cleanOf "G1 X1 X2")).x = 2
    ∧ scanPositions ⟨0, 0, 0⟩ (cleanOf "G1 Z1 ; retract (ignored T9)") = ⟨0, 0, 1⟩
    ∧ detect_tool_changes ["G1 Z1 ; retract (ignored T9)"] = []
    ∧ detect_retractions ["G1 Z1 ; retract (ignored T9)", "G0 X1"]
        = [⟨1, 1, "G1 Z1 ; retract (ignored T9)", 2, "G0 X1", true, 1⟩]
    ∧ (extract_tool_paths ["T1", "G1 X1 X2"]).lookup "1"
        = some [((0 : Rat), 0, 0), (1, 0, 0)]
    ∧ (extract_tool_paths ["T1", "G1 ; X9"]).lookup "1"
        = some [((0 : Rat), 0, 0), (9, 0, 0)]
    ∧ (extract_rapid_segments ["T1", "G1 X1 X2", "G0 Y5"]).lookup "1"
        = some [(((1 : Rat), 0, 0), (1, 5, 0))]
    ∧ (extract_rapid_segments ["T1", "G1 ; X9", "G0 Y5"]).lookup "1"
        = some [(((9 : Rat), 0, 0), (9, 5, 0))] :=
  ⟨by decide, by decide, by decide, by decide, by decide, by decide, by decide, by decide⟩

/-- C3: from the NORMAL state, the retraction detector transitions to
LIFTED exactly when the processed line bears a Z-axis command and the
post-update Z exceeds the previous Z by strictly more than 0.5; a 0.0→0.4
Z move followed by a rapid line yields no RetractionEvent, while a
0.0→0.6 Z move followed by a rapid line yields exactly one. -/
theorem retraction_lift_threshold :
    (∀ (allLines : List String) (st : RState) (n : Nat) (raw : String),
        st.in_retraction = false →
        ((processRetrLine allLines st n raw).in_retraction = true ↔
          (isSkipped (strippedOf raw) = false ∧ isZMovement (cleanOf raw) = true ∧
            st.prev_z + 1/2 < (scanPositions st.pos (cleanOf raw)).z)))
    ∧ detect_retractions ["G1 Z0.4", "G0 X5"] = []
    ∧ (detect_retractions ["G1 Z0.6", "G0 X5"]).length = 1 := by
  refine ⟨?_, by decide, by decide⟩
  intro allLines st n raw h0
  simp only [processRetrLine, cleanOf]
  split_ifs with h1 h2 h3 h4 <;>
    simp_all [Bool.and_eq_true, decide_eq_true_eq]

/-- C3 witness: the transition criterion of `retraction_lift_threshold`
applied to the initial state and the line `G1 Z0.6`. -/
theorem retraction_lift_threshold_witness :
    initRState.in_retraction = false
    ∧ (processRetrLine [] initRState 1 "G1 Z0.6").in_retraction = true :=
  ⟨rfl, (retraction_lift_threshold.1 [] initRState 1 "G1 Z0.6" rfl).mpr (by decide)⟩

/-- C4: while LIFTED, every processed rapid-travel line appends exactly
one more RetractionEvent carrying the unchanged `start_line` and
`start_height`, and the state drops back to NORMAL exactly when the
current Z is below `start_height` at that emitting line; a lift followed
by a three-line rapid plateau therefore yields three events with
identical start data. -/
theorem retraction_plateau_reemit :
    (∀ (allLines : List String) (st : RState) (n : Nat) (raw : String),
        st.in_retraction = true → isSkipped (strippedOf raw) = false →
        isRapid (cleanOf raw) = true →
        ((processRetrLine allLines st n raw).events
            = st.events ++ [⟨st.start_line, st.start_height,
                String.mk (stripChars (allLines.getD (st.start_line - 1) "").data),
                n, String.mk (strippedOf raw), false, 0⟩]
          ∧ (processRetrLine allLines st n raw).start_line = st.start_line
          ∧ (processRetrLine allLines st n raw).start_height = st.start_height
          ∧ ((processRetrLine allLines st n raw).in_retraction = false ↔
              (scanPositions st.pos (cleanOf raw)).z < st.start_height)))
    ∧ detect_retractions ["G1 Z1", "G0 X1", "G0 X2", "G0 X3"]
        = [⟨1, 1, "G1 Z1", 2, "G0 X1", true, 3⟩,
           ⟨1, 1, "G1 Z1", 3, "G0 X2", true, 3⟩,
           ⟨1, 1, "G1 Z1", 4, "G0 X3", true, 3⟩] := by
  refine ⟨?_, by decide⟩
  intro allLines st n raw h0 hs hr
  simp only [processRetrLine, cleanOf] at *
  split_ifs with h1 h2 h3 <;> simp_all [Bool.and_eq_true, decide_eq_true_eq]

/-- C4 witness: the emission clause of `retraction_plateau_reemit`
applied to a LIFTED state (start line 1, start height 1) processing the
rapid line `G0 X1` as line 2. -/
theorem retraction_plateau_reemit_witness :
    (⟨⟨0, 0, 1⟩, 1, true, 1, 1, []⟩ : RState).in_retraction = true
    ∧ isSkipped (strippedOf "G0 X1") = false
    ∧ isRapid (cleanOf "G0 X1") = true
    ∧ ((processRetrLine ["G1 Z1", "G0 X1"] ⟨⟨0, 0, 1⟩, 1, true, 1, 1, []⟩ 2 "G0 X1").events
        = [] ++ [⟨1, 1,
            String.mk (stripChars ((["G1 Z1", "G0 X1"] : List String).getD 0 "").data),
            2, String.mk (strippedOf "G0 X1"), false, 0⟩]
      ∧ (processRetrLine ["G1 Z1", "G0 X1"] ⟨⟨0, 0, 1⟩, 1, true, 1, 1, []⟩ 2 "G0 X1").start_line = 1
      ∧ (processRetrLine ["G1 Z1", "G0 X1"] ⟨⟨0, 0, 1⟩, 1, true, 1, 1, []⟩ 2 "G0 X1").start_height = 1
      ∧ ((processRetrLine ["G1 Z1", "G0 X1"] ⟨⟨0, 0, 1⟩, 1, true, 1, 1, []⟩ 2 "G0 X1").in_retraction = false ↔
          (scanPositions ⟨0, 0, 1⟩ (cleanOf "G0 X1")).z < 1)) :=
  ⟨rfl, by decide, by decide,
    retraction_plateau_reemit.1 ["G1 Z1", "G0 X1"] ⟨⟨0, 0, 1⟩, 1, true, 1, 1, []⟩ 2 "G0 X1"
      rfl (by decide) (by decide)⟩

/-- C8: `parse()` is idempotent and deterministic — it overwrites both
result collections with values computed from `self.lines` alone, so a
second `parse()` reproduces the same `get_tool_changes()` and
`get_retractions()` output, and two parsers with the same loaded lines
agree regardless of any earlier result state. -/
theorem parse_idempotent :
    (∀ p : GCodeParser, parse (parse p) = parse p)
    ∧ (∀ (lines : List String) (tc1 tc2 : List ToolChangeEvent)
         (r1 r2 : List RetractionEvent),
        parse ⟨lines, tc1, r1⟩ = parse ⟨lines, tc2, r2⟩)
    ∧ (∀ p : GCodeParser,
        get_tool_changes (parse (parse p)) = get_tool_changes (parse p)
        ∧ get_retractions (parse (parse p)) = get_retractions (parse p)) :=
  ⟨fun _ => rfl, fun _ _ _ _ _ => rfl, fun _ => ⟨rfl, rfl⟩⟩

/-- C2: tool-change events carry strictly increasing line numbers (one
pass, at most one event per line, the first matching pattern of the
ordered cascade wins); `M61 Q5 T3` yields the single event with tool id
"3" via the bare-T pattern, while `M61 Q5` alone reaches the `M61 Q`
pattern and yields tool id "5". -/
theorem tool_change_first_match :
    (∀ lines : List String,
      List.Pairwise (fun a b => a.line_number < b.line_number)
        (detect_tool_changes lines))
    ∧ detect_tool_changes ["M61 Q5 T3"] = [⟨1, "3", "M61 Q5 T3"⟩]
    ∧ detect_tool_changes ["M61 Q5"] = [⟨1, "5", "M61 Q5"⟩] :=
  ⟨fun lines => detectToolAux_pairwise lines 1, by decide, by decide⟩

/-- C9: `summarize()` is total on degenerate input — with no tool changes
and no retractions it produces the two "none detected" texts and no
primary-height percentage; with retractions present the height bucket of
largest count is reported as primary with its percentage of all
retractions (heights `[1.0]×5` and `[2.0]×2` give 1.000 as primary at
71.4%). -/
theorem summarize_degenerate_and_primary :
    summarize [] [] =
      "=== G-code Analysis Summary ===\n\nTool Changes:\nNo tool changes detected.\n\nRetraction Heights:\nNo retractions detected."
    ∧ summarize [⟨1, "2", "M6 T2"⟩] [] =
      "=== G-code Analysis Summary ===\n\nTool Changes:\nLine 1: Tool T2 - M6 T2\n\nRetraction Heights:\nNo retractions detected."
    ∧ summarize []
        [⟨1, 1, "a", 1, "a", true, 5⟩, ⟨2, 1, "b", 2, "b", true, 5⟩,
         ⟨3, 1, "c", 3, "c", true, 5⟩, ⟨4, 1, "d", 4, "d", true, 5⟩,
         ⟨5, 1, "e", 5, "e", true, 5⟩, ⟨6, 2, "f", 6, "f", true, 2⟩,
         ⟨7, 2, "g", 7, "g", true, 2⟩] =
      "=== G-code Analysis Summary ===\n\nTool Changes:\nNo tool changes detected.\n\nRetraction Heights:\nZ Height: 1.000 (first on line 1)\n  Found in 5 movements\nZ Height: 2.000 (first on line 6)\n  Found in 2 movements\n\nPrimary Retraction Height: 1.000\n  Used in 5 out of 7 retractions\n  (71.4% of all retractions)" := by
  exact ⟨by decide, by decide, by decide⟩

/-- C10: every retraction event returned after grouping has
`1 ≤ line_number ≤ end_line ≤ (number of loaded lines)`, and grouping
touches only `z_height`, `grouped` and `group_size` — the multiset of
`(line_number, end_line, line_content, end_content)` tuples of the
grouped output is exactly that of the detection pass; `get_retractions`
after `parse` returns exactly this grouped collection. -/
theorem retraction_event_invariants :
    ∀ lines : List String,
      (∀ e ∈ detect_retractions lines,
          1 ≤ e.line_number ∧ e.line_number ≤ e.end_line ∧ e.end_line ≤ lines.length)
      ∧ ((detect_retractions lines).map projStart).Perm
          ((detectRetractionsRaw lines).map projStart)
      ∧ get_retractions (parse ⟨lines, [], []⟩) = detect_retractions lines := by
  intro lines
  refine ⟨?_, group_map_projStart_perm _, rfl⟩
  intro e he
  have hperm := group_map_projStart_perm (detectRetractionsRaw lines)
  have hmem : projStart e ∈ (detect_retractions lines).map projStart :=
    List.mem_map_of_mem projStart he
  have hmem2 : projStart e ∈ (detectRetractionsRaw lines).map projStart :=
    hperm.mem_iff.mp hmem
  rcases List.mem_map.mp hmem2 with ⟨e0, he0, heq⟩
  have hb := detectRaw_bounds lines e0 he0
  simp only [projStart, Prod.mk.injEq] at heq
  obtain ⟨hl, hel, -⟩ := heq
  omega

/-- C10 witness: the bounds clause of `retraction_event_invariants`
applied to the single event of the run on `G1 Z1`, `G0 X1`, together
with the grouping-scope permutation for that run. -/
theorem retraction_event_invariants_witness :
    (1 ≤ (⟨1, 1, "G1 Z1", 2, "G0 X1", true, 1⟩ : RetractionEvent).line_number
      ∧ (⟨1, 1, "G1 Z1", 2, "G0 X1", true, 1⟩ : RetractionEvent).line_number
          ≤ (⟨1, 1, "G1 Z1", 2, "G0 X1", true, 1⟩ : RetractionEvent).end_line
      ∧ (⟨1, 1, "G1 Z1", 2, "G0 X1", true, 1⟩ : RetractionEvent).end_line
          ≤ (["G1 Z1", "G0 X1"] : List String).length)
    ∧ ((detect_retractions ["G1 Z1", "G0 X1"]).map projStart).Perm
        ((detectRetractionsRaw ["G1 Z1", "G0 X1"]).map projStart) :=
  ⟨(retraction_event_invariants ["G1 Z1", "G0 X1"]).1
      ⟨1, 1, "G1 Z1", 2, "G0 X1", true, 1⟩ (by decide),
   (retraction_event_invariants ["G1 Z1", "G0 X1"]).2.1⟩

end GCode
